import Mathlib

/-!
# Verification of the bistable-spring geometry engine

Shallow embedding of the core algorithmic parts of the
`mcw-mems-photonic-switch` repository:

* `src/src/components/bistable_spring/ccs_bistable_beam.py`
  (`_compute_ccs_half_centerline`, `_compute_half_width_profile`),
* `src/src/verification/full_spring_utils.py`
  (`get_full_spring_polygon` post-processing, `identify_bc_nodes_2d`,
  `identify_bc_nodes_3d`),
* `src/simulations/bistable-spring/basic-visualization/bistable_beam_simulation.py`
  (`F1_simplified`).

Real-valued geometry (π, cos, sqrt) is embedded over `ℝ`; the purely
arithmetic node-classification and fillet-clamping logic is embedded over
`ℚ` so that concrete instances evaluate by `decide`.  NumPy float NaN
results are modelled as `Option ℝ` with `none` for NaN.  External shapely
geometry-kernel operations (buffer, area, component splitting) are modelled
as an explicit capability record `ShapelyOps`, mirroring how
`get_full_spring_polygon` only inspects the union result through those
operations.
-/

namespace MCW

/-! ## Index selection (`np.where` on a boolean mask)

`whereIdx p l` returns, in increasing order, the indices of the elements
of `l` satisfying `p` — the embedding of `np.where(mask)[0]`. -/

def whereIdxAux {α : Type} (p : α → Bool) : List α → ℕ → List ℕ
  | [], _ => []
  | a :: as, i => if p a then i :: whereIdxAux p as (i + 1) else whereIdxAux p as (i + 1)

def whereIdx {α : Type} (p : α → Bool) (l : List α) : List ℕ :=
  whereIdxAux p l 0

/-! ## Boundary-condition node classifier
(`full_spring_utils.identify_bc_nodes_2d`, lines 204–257). -/

def leftAnchorIdx (nodes : List (ℚ × ℚ)) (tol : ℚ) : List ℕ :=
  whereIdx (fun nd => decide (nd.1 < tol)) nodes

def rightAnchorIdx (nodes : List (ℚ × ℚ)) (anchor_distance tol : ℚ) : List ℕ :=
  whereIdx (fun nd => decide (anchor_distance - tol < nd.1)) nodes

def shuttleIdx (nodes : List (ℚ × ℚ)) (half_span shuttle_length tol : ℚ) : List ℕ :=
  whereIdx (fun nd =>
    decide (half_span - tol < nd.1 ∧ nd.1 < half_span + shuttle_length + tol)) nodes

def junctionIdx (nodes : List (ℚ × ℚ)) (half_span shuttle_length tol
    beam_spacing initial_offset flex_width : ℚ) : List ℕ :=
  whereIdx (fun nd =>
    decide ((|nd.1 - half_span| < tol ∨ |nd.1 - (half_span + shuttle_length)| < tol)
      ∧ (|nd.2 - (initial_offset + beam_spacing / 2)| < flex_width / 2 + 1/10
         ∨ |nd.2 - (initial_offset - beam_spacing / 2)| < flex_width / 2 + 1/10))) nodes

def identify_bc_nodes_2d (nodes : List (ℚ × ℚ)) (anchor_distance half_span
    shuttle_length tol beam_spacing initial_offset flex_width : ℚ) :
    List (String × List ℕ) :=
  [("left_anchor", leftAnchorIdx nodes tol),
   ("right_anchor", rightAnchorIdx nodes anchor_distance tol),
   ("shuttle", shuttleIdx nodes half_span shuttle_length tol),
   ("junction", junctionIdx nodes half_span shuttle_length tol
      beam_spacing initial_offset flex_width)]

/-- `full_spring_utils.identify_bc_nodes_3d` (lines 311–330): same x-axis
predicates as the 2-D classifier, but on N×3 points and with no junction
set. -/
def identify_bc_nodes_3d (points : List (ℚ × ℚ × ℚ)) (anchor_distance half_span
    shuttle_length tol : ℚ) : List (String × List ℕ) :=
  [("left_anchor", whereIdx (fun p => decide (p.1 < tol)) points),
   ("right_anchor", whereIdx (fun p => decide (anchor_distance - tol < p.1)) points),
   ("shuttle", whereIdx (fun p =>
      decide (half_span - tol < p.1 ∧ p.1 < half_span + shuttle_length + tol)) points)]

/-! ## Boolean-merge post-processing
(`full_spring_utils.get_full_spring_polygon`, lines 178–197).

The shapely geometry kernel is external; the code only touches the union
result through `buffer`, `geom_type == 'MultiPolygon'`, `.geoms` and
`.area`, modelled here by the capability record `ShapelyOps`. -/

structure ShapelyOps (G : Type) where
  buffer : ℚ → G → G
  isMultiPolygon : G → Bool
  components : G → List G
  area : G → ℚ

/-- `max_safe = flex_width / 2.0 - 0.02`; `r = min(fillet_radius, max_safe)`. -/
def clampedFilletRadius (flex_width fillet_radius : ℚ) : ℚ :=
  min fillet_radius (flex_width / 2 - 1/50)

/-- Lines 184–189: if `fillet_radius > 0`, clamp and apply
`buffer(-r)` then `buffer(+r)` (erode then dilate, same radius). -/
def applyFillet {G : Type} (ops : ShapelyOps G) (flex_width fillet_radius : ℚ)
    (g : G) : G :=
  if 0 < fillet_radius then
    if 0 < clampedFilletRadius flex_width fillet_radius then
      ops.buffer (clampedFilletRadius flex_width fillet_radius)
        (ops.buffer (-(clampedFilletRadius flex_width fillet_radius)) g)
    else g
  else g

/-- Python `max(merged.geoms, key=lambda g: g.area)`: first component of
maximal area (ties keep the earlier one). -/
def largestComponent {G : Type} (ops : ShapelyOps G) : List G → Option G
  | [] => none
  | x :: xs => some (xs.foldl (fun acc p => if ops.area acc < ops.area p then p else acc) x)

/-- Lines 191–193: if the geometry is a MultiPolygon, keep only the
largest piece; otherwise pass it through unchanged. -/
def keepLargest {G : Type} (ops : ShapelyOps G) (g : G) : G :=
  if ops.isMultiPolygon g then (largestComponent ops (ops.components g)).getD g else g

/-- The whole post-union tail of `get_full_spring_polygon`
(fillet then largest-piece fallback) applied to the boolean-union result. -/
def mergePostprocess {G : Type} (ops : ShapelyOps G) (flex_width fillet_radius : ℚ)
    (merged : G) : G :=
  keepLargest ops (applyFillet ops flex_width fillet_radius merged)

/-- A concrete instantiation of the shapely capabilities used to evaluate
the merge post-processing on explicit inputs: a geometry is the list of
areas of its disjoint pieces, and erosion (`buffer` with negative radius)
splits the running example into pieces of areas 2 and 1. -/
def exOps : ShapelyOps (List ℚ) where
  buffer := fun r g => if r < 0 then [2, 1] else g
  isMultiPolygon := fun g => decide (1 < g.length)
  components := fun g => g.map (fun a => [a])
  area := fun g => g.sum

/-! ## CCS half-beam centerline
(`ccs_bistable_beam._compute_ccs_half_centerline`, lines 109–145). -/

/-- `L_flex = flex_ratio * half_span`. -/
noncomputable def ccsLf (half_span flex_ratio : ℝ) : ℝ := flex_ratio * half_span

/-- `L_rigid = half_span - L_flex`. -/
noncomputable def ccsLr (half_span flex_ratio : ℝ) : ℝ :=
  half_span - ccsLf half_span flex_ratio

/-- Cosine amplitude from C1 continuity:
`A = initial_offset / (1.0 + np.pi * L_rigid / (2.0 * L_flex))`. -/
noncomputable def ccsA (half_span flex_ratio initial_offset : ℝ) : ℝ :=
  initial_offset /
    (1 + Real.pi * ccsLr half_span flex_ratio / (2 * ccsLf half_span flex_ratio))

/-- Rigid-section slope: `slope = A * np.pi / (2.0 * L_flex)`. -/
noncomputable def ccsSlope (half_span flex_ratio initial_offset : ℝ) : ℝ :=
  ccsA half_span flex_ratio initial_offset * Real.pi / (2 * ccsLf half_span flex_ratio)

/-- `n_sec = max(n_points // 2, 30)`. -/
def nSec (n_points : ℕ) : ℕ := max (n_points / 2) 30

/-- `np.linspace(a, b, n, endpoint=False)`: `a + (b-a)*i/n` for `i < n`. -/
noncomputable def linspaceExcl (a b : ℝ) (n : ℕ) : List ℝ :=
  (List.range n).map fun i : ℕ => a + (b - a) * (i : ℝ) / (n : ℝ)

/-- `np.linspace(a, b, n, endpoint=True)`: `a + (b-a)*i/(n-1)` for `i < n`. -/
noncomputable def linspaceIncl (a b : ℝ) (n : ℕ) : List ℝ :=
  (List.range n).map fun i : ℕ => a + (b - a) * (i : ℝ) / ((n : ℝ) - 1)

/-- Section 1 ordinate: `y1 = A * (1.0 - np.cos(np.pi * x / (2.0 * L_flex)))`. -/
noncomputable def ccsFlexY (half_span flex_ratio initial_offset x : ℝ) : ℝ :=
  ccsA half_span flex_ratio initial_offset *
    (1 - Real.cos (Real.pi * x / (2 * ccsLf half_span flex_ratio)))

/-- Section 2 ordinate: `y2 = A + slope * (x2 - L_flex)`. -/
noncomputable def ccsRigidY (half_span flex_ratio initial_offset x : ℝ) : ℝ :=
  ccsA half_span flex_ratio initial_offset +
    ccsSlope half_span flex_ratio initial_offset * (x - ccsLf half_span flex_ratio)

/-- The sampled half-beam centerline returned by
`_compute_ccs_half_centerline`: the flex section sampled on
`linspace(0, L_flex, n_sec, endpoint=False)` followed by the rigid section
sampled on `linspace(L_flex, half_span, n_sec, endpoint=True)`, paired as
(x, y) points. -/
noncomputable def ccsHalfCenterline (half_span flex_ratio initial_offset : ℝ)
    (n_points : ℕ) : List (ℝ × ℝ) :=
  ((linspaceExcl 0 (ccsLf half_span flex_ratio) (nSec n_points)).map
      fun x => (x, ccsFlexY half_span flex_ratio initial_offset x))
  ++ ((linspaceIncl (ccsLf half_span flex_ratio) half_span (nSec n_points)).map
      fun x => (x, ccsRigidY half_span flex_ratio initial_offset x))

/-- The analytic curve the centerline samples are drawn from: cosine
branch for `x ≤ L_flex`, straight rigid branch beyond. -/
noncomputable def ccsHalfY (half_span flex_ratio initial_offset x : ℝ) : ℝ :=
  if x ≤ ccsLf half_span flex_ratio then ccsFlexY half_span flex_ratio initial_offset x
  else ccsRigidY half_span flex_ratio initial_offset x

/-- Amplitude formula exactly as §4.1 of the design document words it
(spec-side definition, for the refinement comparison with `ccsA`). -/
noncomputable def specAmplitude (half_span flex_ratio initial_offset : ℝ) : ℝ :=
  initial_offset /
    (1 + Real.pi * (half_span - flex_ratio * half_span) / (2 * (flex_ratio * half_span)))

/-! ## CCS half-beam width profile
(`ccs_bistable_beam._compute_half_width_profile`, lines 148–186).

Pointwise semantics of the mask-based array code: initialise to
`rigid_width`, overwrite with `flex_width` where `x <= t_start`, and with
the cosine interpolant where `t_start < x < t_end`. -/

noncomputable def halfWidthProfile (half_span flex_ratio flex_width rigid_width
    taper_length x : ℝ) : ℝ :=
  if x ≤ ccsLf half_span flex_ratio - taper_length / 2 then flex_width
  else if x < ccsLf half_span flex_ratio + taper_length / 2 then
    flex_width + (rigid_width - flex_width) * (1/2) *
      (1 - Real.cos (Real.pi *
        ((x - (ccsLf half_span flex_ratio - taper_length / 2)) / taper_length)))
  else rigid_width

/-! ## Analytical force-displacement model
(`bistable_beam_simulation.F1_simplified`, lines 96–133).

`np.nan` entries are modelled as `none`. -/

/-- `discriminant = 0.25 - 4/(3*Q**2)`. -/
noncomputable def F1disc (Q : ℝ) : ℝ := 1/4 - 4 / (3 * Q ^ 2)

/-- `root1 = 1.5 - sqrt_term`. -/
noncomputable def F1root1 (Q : ℝ) : ℝ := 3/2 - Real.sqrt (F1disc Q)

/-- `root2 = 1.5 + sqrt_term`. -/
noncomputable def F1root2 (Q : ℝ) : ℝ := 3/2 + Real.sqrt (F1disc Q)

/-- `coeff = 3 * np.pi**4 * Q**2 / 2`. -/
noncomputable def F1coeff (Q : ℝ) : ℝ := 3 * Real.pi ^ 4 * Q ^ 2 / 2

/-- The cubic returned on the real-root branch:
`coeff * Delta * (Delta - root1) * (Delta - root2)`. -/
noncomputable def F1value (Q d : ℝ) : ℝ :=
  F1coeff Q * d * (d - F1root1 Q) * (d - F1root2 Q)

/-- `F1_simplified(Delta, Q)` on a sample array: all-NaN if the
discriminant is negative, else the cubic at every sample. -/
noncomputable def F1_simplified (Q : ℝ) (deltas : List ℝ) : List (Option ℝ) :=
  if F1disc Q < 0 then deltas.map fun _ => none
  else deltas.map fun d => some (F1value Q d)

/-! ## Helper lemmas -/

theorem whereIdxAux_cons {α : Type} (p : α → Bool) (a : α) (as : List α) (k : ℕ) :
    whereIdxAux p (a :: as) k =
      if p a then k :: whereIdxAux p as (k + 1) else whereIdxAux p as (k + 1) := rfl

theorem mem_whereIdxAux {α : Type} (p : α → Bool) :
    ∀ (l : List α) (k i : ℕ),
      i ∈ whereIdxAux p l k ↔ ∃ j a, l.get? j = some a ∧ p a = true ∧ i = k + j := by
  intro l
  induction l with
  | nil => intro k i; simp [whereIdxAux]
  | cons a as ih =>
    intro k i
    rw [whereIdxAux_cons]
    by_cases hpa : p a = true
    · rw [if_pos hpa, List.mem_cons, ih]
      constructor
      · rintro (rfl | ⟨j, b, hget, hpb, rfl⟩)
        · exact ⟨0, a, rfl, hpa, by omega⟩
        · exact ⟨j + 1, b, hget, hpb, by omega⟩
      · rintro ⟨j, b, hget, hpb, rfl⟩
        cases j with
        | zero => left; omega
        | succ j => right; exact ⟨j, b, by simpa using hget, hpb, by omega⟩
    · rw [if_neg hpa, ih]
      constructor
      · rintro ⟨j, b, hget, hpb, rfl⟩
        exact ⟨j + 1, b, hget, hpb, by omega⟩
      · rintro ⟨j, b, hget, hpb, rfl⟩
        cases j with
        | zero =>
          exfalso
          simp only [List.get?_cons_zero, Option.some.injEq] at hget
          subst hget
          exact hpa hpb
        | succ j => exact ⟨j, b, by simpa using hget, hpb, by omega⟩

theorem mem_whereIdx {α : Type} (p : α → Bool) (l : List α) (i : ℕ) :
    i ∈ whereIdx p l ↔ ∃ a, l.get? i = some a ∧ p a = true := by
  rw [whereIdx, mem_whereIdxAux]
  constructor
  · rintro ⟨j, a, hget, hpa, rfl⟩
    exact ⟨a, by simpa using hget, hpa⟩
  · rintro ⟨a, hget, hpa⟩
    exact ⟨i, a, hget, hpa, by omega⟩

theorem foldlLargest_mem {G : Type} (ops : ShapelyOps G) :
    ∀ (xs : List G) (x : G),
      xs.foldl (fun acc p => if ops.area acc < ops.area p then p else acc) x ∈ x :: xs := by
  intro xs
  induction xs with
  | nil => intro x; simp
  | cons y ys ih =>
    intro x
    have h := ih (if ops.area x < ops.area y then y else x)
    simp only [List.foldl_cons]
    rcases List.mem_cons.mp h with h' | h'
    · rw [h']
      by_cases hxy : ops.area x < ops.area y
      · simp only [if_pos hxy]; exact List.mem_cons_of_mem _ (List.mem_cons_self _ _)
      · simp only [if_neg hxy]; exact List.mem_cons_self _ _
    · exact List.mem_cons_of_mem _ (List.mem_cons_of_mem _ h')

theorem foldlLargest_le {G : Type} (ops : ShapelyOps G) :
    ∀ (xs : List G) (x : G), ∀ p ∈ x :: xs,
      ops.area p ≤
        ops.area (xs.foldl (fun acc q => if ops.area acc < ops.area q then q else acc) x) := by
  intro xs
  induction xs with
  | nil => intro x p hp; simp at hp; subst hp; exact le_refl _
  | cons y ys ih =>
    intro x p hp
    simp only [List.foldl_cons]
    have hx : ops.area x ≤ ops.area (if ops.area x < ops.area y then y else x) := by
      by_cases hxy : ops.area x < ops.area y
      · simpa [if_pos hxy] using le_of_lt hxy
      · simp [if_neg hxy]
    have hy : ops.area y ≤ ops.area (if ops.area x < ops.area y then y else x) := by
      by_cases hxy : ops.area x < ops.area y
      · simp [if_pos hxy]
      · simpa [if_neg hxy] using le_of_not_lt hxy
    have hhead := ih (if ops.area x < ops.area y then y else x)
      (if ops.area x < ops.area y then y else x) (List.mem_cons_self _ _)
    rcases List.mem_cons.mp hp with rfl | hp'
    · exact le_trans hx hhead
    · rcases List.mem_cons.mp hp' with rfl | hp''
      · exact le_trans hy hhead
      · exact ih _ p (List.mem_cons_of_mem _ hp'')

theorem largestComponent_spec {G : Type} (ops : ShapelyOps G) (l : List G)
    (hl : l ≠ []) :
    ∃ gm, largestComponent ops l = some gm ∧ gm ∈ l ∧ ∀ p ∈ l, ops.area p ≤ ops.area gm := by
  cases l with
  | nil => exact absurd rfl hl
  | cons x xs =>
    exact ⟨_, rfl, foldlLargest_mem ops xs x, fun p hp => foldlLargest_le ops xs x p hp⟩

/-! ## Claims -/

/-- C10: for every 3-D point array the 3-D boundary-condition classifier
returns exactly the three keys `left_anchor`, `right_anchor`, `shuttle`
(never a `junction` set), while the 2-D classifier returns four keys
including `junction`. -/
theorem claim_C10_bc3d_keys :
    (∀ (points : List (ℚ × ℚ × ℚ)) (ad hs sl tol : ℚ),
      (identify_bc_nodes_3d points ad hs sl tol).map Prod.fst
        = ["left_anchor", "right_anchor", "shuttle"]
      ∧ "junction" ∉ (identify_bc_nodes_3d points ad hs sl tol).map Prod.fst)
    ∧ ∀ (nodes : List (ℚ × ℚ)) (ad hs sl tol bs off fw : ℚ),
      (identify_bc_nodes_2d nodes ad hs sl tol bs off fw).map Prod.fst
        = ["left_anchor", "right_anchor", "shuttle", "junction"] :=
  ⟨fun _ _ _ _ _ => ⟨rfl, by simp [identify_bc_nodes_3d]⟩, fun _ _ _ _ _ _ _ _ => rfl⟩

/-- C6 counterexample: on the default full-spring parameters, the node
`(36.5, 6.2)` (a beam-shuttle attachment point) is classified both as a
`shuttle` node and as a `junction` node, so a node index can appear in two
of the four returned sets. -/
theorem claim_C6_counterexample :
    0 ∈ shuttleIdx [((73:ℚ)/2, (31:ℚ)/5)] (73/2) 7 (1/20)
    ∧ 0 ∈ junctionIdx [((73:ℚ)/2, (31:ℚ)/5)] (73/2) 7 (1/20) 10 (6/5) (1/2) := by
  constructor
  · rw [shuttleIdx, mem_whereIdx]
    exact ⟨_, rfl, decide_eq_true (by norm_num)⟩
  · rw [junctionIdx, mem_whereIdx]
    refine ⟨_, rfl, decide_eq_true ⟨Or.inl ?_, Or.inl ?_⟩⟩
    · rw [show (73:ℚ)/2 - 73/2 = 0 by norm_num, abs_zero]; norm_num
    · rw [show (31:ℚ)/5 - (6/5 + 10/2) = 0 by norm_num, abs_zero]; norm_num

/-- C6 amended: `left_anchor` and `right_anchor` are disjoint whenever
`2·tol ≤ anchor_distance`, but the `junction` set is contained in the
`shuttle` set whenever `shuttle_length ≥ 0`, so a junction node always
appears in two of the four returned sets; nodes may appear in none. -/
theorem claim_C6_amended (nodes : List (ℚ × ℚ)) (ad hs sl tol bs off fw : ℚ) :
    (2 * tol ≤ ad →
      ∀ i, i ∈ leftAnchorIdx nodes tol → i ∉ rightAnchorIdx nodes ad tol)
    ∧ (0 ≤ sl →
      ∀ i, i ∈ junctionIdx nodes hs sl tol bs off fw → i ∈ shuttleIdx nodes hs sl tol) := by
  constructor
  · intro htol i hiL hiR
    rw [leftAnchorIdx, mem_whereIdx] at hiL
    rw [rightAnchorIdx, mem_whereIdx] at hiR
    obtain ⟨a, ha, hpa⟩ := hiL
    obtain ⟨b, hb, hpb⟩ := hiR
    rw [ha, Option.some.injEq] at hb
    subst hb
    simp only [decide_eq_true_eq] at hpa hpb
    linarith
  · intro hsl i hi
    rw [junctionIdx, mem_whereIdx] at hi
    obtain ⟨a, ha, hpa⟩ := hi
    rw [shuttleIdx, mem_whereIdx]
    refine ⟨a, ha, ?_⟩
    simp only [decide_eq_true_eq] at hpa ⊢
    obtain ⟨hx, -⟩ := hpa
    rcases hx with hx | hx <;> rw [abs_lt] at hx <;>
      exact ⟨by linarith [hx.1], by linarith [hx.2]⟩

/-- C6 witness: the amended theorem instantiated on concrete nodes — a node
at the origin is a left-anchor node and not a right-anchor node, and the
node `(36.5, 6.2)` classified as junction is also a shuttle node. -/
theorem claim_C6_witness :
    (0 ∉ rightAnchorIdx [((0:ℚ), (0:ℚ))] 80 (1/20))
    ∧ 0 ∈ shuttleIdx [((73:ℚ)/2, (31:ℚ)/5)] (73/2) 7 (1/20) :=
  ⟨(claim_C6_amended [((0:ℚ), (0:ℚ))] 80 (73/2) 7 (1/20) 10 (6/5) (1/2)).1
      (by norm_num) 0
      (by rw [leftAnchorIdx, mem_whereIdx]; exact ⟨_, rfl, decide_eq_true (by norm_num)⟩),
   (claim_C6_amended [((73:ℚ)/2, (31:ℚ)/5)] 80 (73/2) 7 (1/20) 10 (6/5) (1/2)).2
      (by norm_num) 0
      (by
        rw [junctionIdx, mem_whereIdx]
        refine ⟨_, rfl, decide_eq_true ⟨Or.inl ?_, Or.inl ?_⟩⟩
        · rw [show (73:ℚ)/2 - 73/2 = 0 by norm_num, abs_zero]; norm_num
        · rw [show (31:ℚ)/5 - (6/5 + 10/2) = 0 by norm_num, abs_zero]; norm_num)⟩

/-- C7 counterexample: the merge post-processing never signals an error.
On a union result of area 4 whose erosion splits it into pieces of areas
2 and 1 (combined area 3 ≠ 4), `get_full_spring_polygon` silently returns
the largest piece (area 2) instead of failing with
`NonManifoldPolygonError` — no such error exists in the code. -/
theorem claim_C7_counterexample :
    mergePostprocess exOps (1/2) (1/10) [4] = [2]
    ∧ exOps.area [(4:ℚ)] = 4
    ∧ exOps.area (mergePostprocess exOps (1/2) (1/10) [4]) = 2
    ∧ exOps.isMultiPolygon (applyFillet exOps (1/2) (1/10) [4]) = true := by
  norm_num [mergePostprocess, applyFillet, keepLargest, largestComponent,
    clampedFilletRadius, exOps, min_def]

/-- C7 amended: the merge post-processing never raises: a non-split result
is returned unchanged (even if it has zero area), and a split
(MultiPolygon) result is silently replaced by one of its disjoint
components (the largest), regardless of how much area was lost. -/
theorem claim_C7_amended {G : Type} (ops : ShapelyOps G) (fw fr : ℚ) (g : G) :
    (ops.isMultiPolygon (applyFillet ops fw fr g) = false →
      mergePostprocess ops fw fr g = applyFillet ops fw fr g)
    ∧ (ops.isMultiPolygon (applyFillet ops fw fr g) = true →
       ops.components (applyFillet ops fw fr g) ≠ [] →
       mergePostprocess ops fw fr g ∈ ops.components (applyFillet ops fw fr g)) := by
  constructor
  · intro hns
    simp [mergePostprocess, keepLargest, hns]
  · intro hms hne
    obtain ⟨gm, hgm, hmem, -⟩ := largestComponent_spec ops _ hne
    simp [mergePostprocess, keepLargest, hms, hgm, hmem]

/-- C7 witness: the amended theorem applied to the concrete split example —
the returned geometry is one of the disjoint post-fillet components. -/
theorem claim_C7_witness :
    mergePostprocess exOps (1/2) (1/10) [4]
      ∈ exOps.components (applyFillet exOps (1/2) (1/10) [4]) :=
  (claim_C7_amended exOps (1/2) (1/10) [4]).2
    (by norm_num [applyFillet, clampedFilletRadius, exOps, min_def])
    (by
      norm_num [applyFillet, clampedFilletRadius, exOps, min_def]
      exact List.cons_ne_nil _ _)

/-- C8: for every `fillet_radius > 0` the applied erosion radius is
`min fillet_radius (flex_width/2 − 0.02)`, hence never exceeds
`flex_width/2 − 0.02` and is strictly below half the flex width; the same
radius is used for the erosion and the subsequent dilation; and when the
result is a MultiPolygon, only the component of largest area is kept. -/
theorem claim_C8_fillet_clamp {G : Type} (ops : ShapelyOps G) (fw fr : ℚ) (g : G)
    (hfr : 0 < fr) :
    clampedFilletRadius fw fr ≤ fw / 2 - 1/50
    ∧ clampedFilletRadius fw fr < fw / 2
    ∧ applyFillet ops fw fr g =
        (if 0 < clampedFilletRadius fw fr then
          ops.buffer (clampedFilletRadius fw fr)
            (ops.buffer (-(clampedFilletRadius fw fr)) g)
        else g)
    ∧ ∀ (m : G), ops.isMultiPolygon m = true → ops.components m ≠ [] →
        ∃ gm, keepLargest ops m = gm ∧ gm ∈ ops.components m
          ∧ ∀ p ∈ ops.components m, ops.area p ≤ ops.area gm := by
  refine ⟨min_le_right _ _, lt_of_le_of_lt (min_le_right _ _) (by linarith), ?_, ?_⟩
  · simp [applyFillet, if_pos hfr]
  · intro m hms hne
    obtain ⟨gm, hgm, hmem, hmax⟩ := largestComponent_spec ops _ hne
    exact ⟨gm, by simp [keepLargest, hms, hgm], hmem, hmax⟩

/-- C8 witness: concrete clamping — for `flex_width = 0.5`,
`fillet_radius = 0.1` the applied radius is `0.1`, strictly below
`flex_width/2 = 0.25`. -/
theorem claim_C8_witness :
    clampedFilletRadius (1/2) (1/10) < (1/2) / 2
    ∧ clampedFilletRadius (1/2) (1/10) = 1/10 :=
  ⟨(claim_C8_fillet_clamp exOps (1/2) (1/10) [4] (by norm_num)).2.1,
   min_eq_left (by norm_num)⟩

/-- C1: for every valid half-beam spec the cosine amplitude is computed in
closed form exactly as `A = initial_offset / (1 + π·L_rigid/(2·L_flex))`
with `L_flex = flex_ratio·half_span` and `L_rigid = half_span − L_flex`
(written here as the spec-side formula `specAmplitude`); this `A` is
exactly the solution of the C¹-matching condition (cosine-end slope equals
the rigid-line slope needed to reach `initial_offset`); and for
`half_span = 20`, `flex_ratio = 0.3` the section lengths are
`L_flex = 6`, `L_rigid = 14`. -/
theorem claim_C1_amplitude (hs fr off : ℝ) (hhs : 0 < hs) (hfr0 : 0 < fr)
    (hfr1 : fr < 1) (hoff : 0 ≤ off) :
    ccsA hs fr off = specAmplitude hs fr off
    ∧ ccsSlope hs fr off = (off - ccsA hs fr off) / ccsLr hs fr
    ∧ 0 ≤ ccsA hs fr off ∧ ccsA hs fr off ≤ off
    ∧ ccsLf 20 (3/10) = 6 ∧ ccsLr 20 (3/10) = 14 := by
  have hLf : 0 < fr * hs := mul_pos hfr0 hhs
  have hLr : 0 < hs - fr * hs := by nlinarith
  have hpi := Real.pi_pos
  have hquot : 0 ≤ Real.pi * (hs - fr * hs) / (2 * (fr * hs)) := by positivity
  have hden : 0 < 1 + Real.pi * (hs - fr * hs) / (2 * (fr * hs)) := by linarith
  refine ⟨rfl, ?_, ?_, ?_, by norm_num [ccsLf], by norm_num [ccsLr, ccsLf]⟩
  · show ccsA hs fr off * Real.pi / (2 * ccsLf hs fr) = (off - ccsA hs fr off) / ccsLr hs fr
    rw [ccsA, ccsLr, ccsLf]
    field_simp
    ring
  · exact div_nonneg hoff (le_of_lt (by simpa [ccsLr, ccsLf] using hden))
  · show off / (1 + Real.pi * ccsLr hs fr / (2 * ccsLf hs fr)) ≤ off
    rw [ccsLr, ccsLf]
    exact div_le_self hoff (by linarith)

/-- C5: whenever the discriminant `0.25 − 4/(3Q²)` is negative, the
force-displacement function returns NaN (modelled `none`) at every queried
Δ instead of raising; in particular for `Q = 1.0` every sample array comes
back all-NaN. -/
theorem claim_C5_nan_below_threshold :
    (∀ (Q : ℝ) (ds : List ℝ), F1disc Q < 0 →
      F1_simplified Q ds = ds.map fun _ => none)
    ∧ ∀ ds : List ℝ, F1_simplified 1 ds = ds.map fun _ => none := by
  have h1 : ∀ (Q : ℝ) (ds : List ℝ), F1disc Q < 0 →
      F1_simplified Q ds = ds.map fun _ => none := by
    intro Q ds h
    rw [F1_simplified, if_pos h]
  exact ⟨h1, fun ds => h1 1 ds (by norm_num [F1disc])⟩

/-- C5 witness: the NaN branch evaluated at `Q = 1`, `Δ = 0.5`. -/
theorem claim_C5_witness : F1_simplified 1 [(1:ℝ)/2] = [none] :=
  (claim_C5_nan_below_threshold.1 1 [(1:ℝ)/2] (by norm_num [F1disc])).trans (by simp)

/-- C1 witness: the amplitude facts instantiated at the default half-beam
spec `half_span = 20`, `flex_ratio = 0.3`, `initial_offset = 1.2`. -/
theorem claim_C1_witness :
    ccsA 20 (3/10) (6/5) = specAmplitude 20 (3/10) (6/5)
    ∧ ccsLf 20 (3/10) = 6 ∧ ccsLr 20 (3/10) = 14 := by
  have h := claim_C1_amplitude 20 (3/10) (6/5)
    (by norm_num) (by norm_num) (by norm_num) (by norm_num)
  exact ⟨h.1, h.2.2.2.2.1, h.2.2.2.2.2⟩

/-- At `Q = 6` the discriminant is `23/108` and its square root lies
strictly between `0` and `1/2`. -/
theorem sqrtDisc6_bounds :
    F1disc 6 = 23/108
    ∧ 0 < Real.sqrt (F1disc 6) ∧ Real.sqrt (F1disc 6) < 1/2 := by
  have hd : F1disc 6 = 23/108 := by norm_num [F1disc]
  refine ⟨hd, Real.sqrt_pos.mpr (by rw [hd]; norm_num), ?_⟩
  rw [(Real.sqrt_lt' (by norm_num)), hd]
  norm_num

/-- C2 counterexample: `Q = 2` is above the spec's claimed validity
threshold `2/√3 ≈ 1.1547`, yet the force-displacement function returns the
all-NaN branch (discriminant `0.25 − 4/(3·4) < 0`), not the real cubic. -/
theorem claim_C2_counterexample :
    2 / Real.sqrt 3 < 2 ∧ F1_simplified 2 [1] = [none] := by
  constructor
  · have h3 : 1 < Real.sqrt 3 := by
      rw [show (1:ℝ) = Real.sqrt 1 by simp]
      exact Real.sqrt_lt_sqrt (by norm_num) (by norm_num)
    have hpos : 0 < Real.sqrt 3 := by positivity
    rw [div_lt_iff₀ hpos]
    nlinarith
  · rw [F1_simplified, if_pos (by norm_num [F1disc] : F1disc 2 < 0)]
    simp

/-- C2 amended: whenever the discriminant `0.25 − 4/(3Q²)` is nonnegative
(for positive `Q` this means `Q ≥ 4/√3 ≈ 2.309`, not `2/√3`), the
function returns at each sampled Δ exactly the cubic
`(3π⁴Q²/2)·Δ·(Δ−r₁)·(Δ−r₂)` with `r₁,₂ = 1.5 ∓ √(0.25 − 4/(3Q²))`; and
for `Q = 6` both interior roots lie in `(0,2)` with `F` strictly positive
before the first crossing, strictly negative between the two crossings,
and strictly positive after the second, so a sampling of `[0,2]` sees
exactly two interior zero-crossings with positive maximum before the
first and negative minimum between them. -/
theorem claim_C2_amended :
    (∀ (Q : ℝ) (ds : List ℝ), 0 ≤ F1disc Q →
      F1_simplified Q ds = ds.map fun d => some (F1value Q d))
    ∧ (0 < F1root1 6 ∧ F1root1 6 < F1root2 6 ∧ F1root2 6 < 2)
    ∧ ∀ d : ℝ, 0 < d → d < 2 →
        ((F1value 6 d = 0 ↔ d = F1root1 6 ∨ d = F1root2 6)
        ∧ (d < F1root1 6 → 0 < F1value 6 d)
        ∧ (F1root1 6 < d → d < F1root2 6 → F1value 6 d < 0)
        ∧ (F1root2 6 < d → 0 < F1value 6 d)) := by
  obtain ⟨hd, hs0, hs12⟩ := sqrtDisc6_bounds
  have hr1 : F1root1 6 = 3/2 - Real.sqrt (F1disc 6) := rfl
  have hr2 : F1root2 6 = 3/2 + Real.sqrt (F1disc 6) := rfl
  have hc : 0 < F1coeff 6 := by
    rw [F1coeff]
    positivity
  refine ⟨?_, ⟨by rw [hr1]; linarith, by rw [hr1, hr2]; linarith, by rw [hr2]; linarith⟩, ?_⟩
  · intro Q ds h
    rw [F1_simplified, if_neg (not_lt.mpr h)]
  · intro d hd0 hd2
    have hfact : F1value 6 d
        = (F1coeff 6 * d) * ((d - F1root1 6) * (d - F1root2 6)) := by
      rw [F1value]; ring
    refine ⟨?_, ?_, ?_, ?_⟩
    · rw [F1value, mul_eq_zero, mul_eq_zero, mul_eq_zero]
      constructor
      · rintro (((h | h) | h) | h)
        · exact absurd h hc.ne'
        · exact absurd h hd0.ne'
        · exact Or.inl (sub_eq_zero.mp h)
        · exact Or.inr (sub_eq_zero.mp h)
      · rintro (h | h) <;> rw [h] <;> simp
    · intro hlt
      rw [hfact]
      exact mul_pos (mul_pos hc hd0)
        (mul_pos_of_neg_of_neg (by linarith) (by linarith [hr1, hr2, hs0]))
    · intro hgt hlt
      rw [hfact]
      exact mul_neg_of_pos_of_neg (mul_pos hc hd0)
        (mul_neg_of_pos_of_neg (by linarith) (by linarith))
    · intro hgt
      rw [hfact]
      exact mul_pos (mul_pos hc hd0)
        (mul_pos (by linarith [hr1, hr2, hs0]) (by linarith))

/-- C2 witness: the cubic branch evaluated at `Q = 6`, `Δ = 1`, which lies
before the first interior crossing, so the force there is positive. -/
theorem claim_C2_witness :
    F1_simplified 6 [(1:ℝ)] = [some (F1value 6 1)] ∧ 0 < F1value 6 1 := by
  have h1lt : (1:ℝ) < F1root1 6 := by
    obtain ⟨-, -, hs12⟩ := sqrtDisc6_bounds
    show (1:ℝ) < 3/2 - Real.sqrt (F1disc 6)
    linarith
  exact ⟨(claim_C2_amended.1 6 [1] (by norm_num [F1disc])).trans (by simp),
    (claim_C2_amended.2.2 1 (by norm_num) (by norm_num)).2.1 h1lt⟩

/-- C9: for `taper_length > 0` the width profile equals `flex_width` up to
`L_flex − taper_length/2`, equals `rigid_width` from
`L_flex + taper_length/2` on, and inside the taper zone equals the cosine
interpolant `flex_width + (rigid_width − flex_width)·0.5·(1 − cos(π·t))`
with `t = (x − (L_flex − taper_length/2))/taper_length ∈ [0,1]`; the
profile is a continuous function of `x` and always lies between
`flex_width` and `rigid_width`. -/
theorem claim_C9_width_profile (hs fr fw rw tl : ℝ) (htl : 0 < tl) :
    (∀ x : ℝ, x ≤ ccsLf hs fr - tl/2 → halfWidthProfile hs fr fw rw tl x = fw)
    ∧ (∀ x : ℝ, ccsLf hs fr + tl/2 ≤ x → halfWidthProfile hs fr fw rw tl x = rw)
    ∧ (∀ x : ℝ, ccsLf hs fr - tl/2 < x → x < ccsLf hs fr + tl/2 →
        (halfWidthProfile hs fr fw rw tl x
          = fw + (rw - fw) * (1/2) *
              (1 - Real.cos (Real.pi * ((x - (ccsLf hs fr - tl/2)) / tl)))
        ∧ 0 ≤ (x - (ccsLf hs fr - tl/2)) / tl
        ∧ (x - (ccsLf hs fr - tl/2)) / tl ≤ 1))
    ∧ Continuous (halfWidthProfile hs fr fw rw tl)
    ∧ ∀ x : ℝ, min fw rw ≤ halfWidthProfile hs fr fw rw tl x
        ∧ halfWidthProfile hs fr fw rw tl x ≤ max fw rw := by
  refine ⟨?_, ?_, ?_, ?_, ?_⟩
  · intro x hx
    rw [halfWidthProfile, if_pos hx]
  · intro x hx
    rw [halfWidthProfile, if_neg (not_le.mpr (by linarith)), if_neg (not_lt.mpr hx)]
  · intro x h1 h2
    rw [halfWidthProfile, if_neg (not_le.mpr h1), if_pos h2]
    exact ⟨rfl, div_nonneg (by linarith) htl.le, (div_le_one htl).mpr (by linarith)⟩
  · have hkey : halfWidthProfile hs fr fw rw tl = fun x =>
        if x ≤ ccsLf hs fr - tl/2 then fw
        else if ccsLf hs fr + tl/2 ≤ x then rw
        else fw + (rw - fw) * (1/2) *
          (1 - Real.cos (Real.pi * ((x - (ccsLf hs fr - tl/2)) / tl))) := by
      funext x
      rw [halfWidthProfile]
      by_cases hx1 : x ≤ ccsLf hs fr - tl/2
      · rw [if_pos hx1, if_pos hx1]
      · rw [if_neg hx1, if_neg hx1]
        by_cases hx2 : x < ccsLf hs fr + tl/2
        · rw [if_pos hx2, if_neg (not_le.mpr hx2)]
        · rw [if_neg hx2, if_pos (not_lt.mp hx2)]
    rw [hkey]
    have hinterp : Continuous fun x : ℝ => fw + (rw - fw) * (1/2) *
        (1 - Real.cos (Real.pi * ((x - (ccsLf hs fr - tl/2)) / tl))) := by
      have harg : Continuous fun x : ℝ =>
          Real.pi * ((x - (ccsLf hs fr - tl/2)) / tl) :=
        continuous_const.mul ((continuous_id.sub continuous_const).div_const tl)
      exact continuous_const.add (continuous_const.mul
        (continuous_const.sub (Real.continuous_cos.comp harg)))
    have hinner : Continuous fun x : ℝ =>
        if ccsLf hs fr + tl/2 ≤ x then rw
        else fw + (rw - fw) * (1/2) *
          (1 - Real.cos (Real.pi * ((x - (ccsLf hs fr - tl/2)) / tl))) := by
      refine Continuous.if_le continuous_const hinterp continuous_const continuous_id ?_
      intro x hx
      rw [← hx]
      have hone : (ccsLf hs fr + tl/2 - (ccsLf hs fr - tl/2)) / tl = 1 := by
        field_simp
      rw [hone, mul_one, Real.cos_pi]
      ring
    refine Continuous.if_le continuous_const hinner continuous_id continuous_const ?_
    intro x hx
    rw [hx]
    have hzero : (ccsLf hs fr - tl/2 - (ccsLf hs fr - tl/2)) / tl = 0 := by
      rw [sub_self, zero_div]
    rw [if_neg (by linarith : ¬ ccsLf hs fr + tl/2 ≤ ccsLf hs fr - tl/2),
      hzero, mul_zero, Real.cos_zero]
    ring
  · intro x
    rw [halfWidthProfile]
    split_ifs with h1 h2
    · exact ⟨min_le_left _ _, le_max_left _ _⟩
    · have hc1 := Real.neg_one_le_cos (Real.pi * ((x - (ccsLf hs fr - tl/2)) / tl))
      have hc2 := Real.cos_le_one (Real.pi * ((x - (ccsLf hs fr - tl/2)) / tl))
      rcases le_total fw rw with h | h
      · rw [min_eq_left h, max_eq_right h]
        constructor <;> nlinarith
      · rw [min_eq_right h, max_eq_left h]
        constructor <;> nlinarith
    · exact ⟨min_le_right _ _, le_max_right _ _⟩

/-- C9 witness: the width profile on the default half-beam spec, evaluated
in the flex region (`x = 1`) and in the rigid region (`x = 10`). -/
theorem claim_C9_witness :
    halfWidthProfile 20 (3/10) (1/2) (15/16) 2 1 = 1/2
    ∧ halfWidthProfile 20 (3/10) (1/2) (15/16) 2 10 = 15/16 :=
  ⟨(claim_C9_width_profile 20 (3/10) (1/2) (15/16) 2 (by norm_num)).1 1
      (by norm_num [ccsLf]),
   (claim_C9_width_profile 20 (3/10) (1/2) (15/16) 2 (by norm_num)).2.1 10
      (by norm_num [ccsLf])⟩

/-! ## Centerline sample and endpoint lemmas (for C3/C4) -/

theorem nSec_eq_succ (n : ℕ) : ∃ m, nSec n = m + 1 ∧ m ≠ 0 := by
  have h : 30 ≤ nSec n := le_max_right _ _
  exact ⟨nSec n - 1, by omega, by omega⟩

theorem linspaceExcl_head (a b : ℝ) (m : ℕ) :
    (linspaceExcl a b (m + 1)).head? = some a := by
  rw [linspaceExcl, List.range_succ_eq_map]
  simp

theorem ccsHalfCenterline_head (hs fr off : ℝ) (n : ℕ) :
    (ccsHalfCenterline hs fr off n).head? = some (0, 0) := by
  obtain ⟨m, hm, -⟩ := nSec_eq_succ n
  rw [ccsHalfCenterline, hm,
    List.head?_append_of_ne_nil _ (by simp [linspaceExcl]),
    linspaceExcl, List.range_succ_eq_map]
  simp [ccsFlexY]

theorem ccsRigidY_at_shuttle (hs fr off : ℝ) (hhs : 0 < hs) (hfr0 : 0 < fr)
    (hfr1 : fr < 1) : ccsRigidY hs fr off hs = off := by
  have hLf : 0 < fr * hs := mul_pos hfr0 hhs
  have hLr : 0 < hs - fr * hs := by nlinarith
  have hpi := Real.pi_pos
  have hq : 0 ≤ Real.pi * (hs - fr * hs) / (2 * (fr * hs)) :=
    div_nonneg (mul_nonneg hpi.le hLr.le) (by positivity)
  have hden : (1:ℝ) + Real.pi * (hs - fr * hs) / (2 * (fr * hs)) ≠ 0 :=
    (by linarith : (0:ℝ) < 1 + Real.pi * (hs - fr * hs) / (2 * (fr * hs))).ne'
  rw [ccsRigidY, ccsSlope, ccsA, ccsLr, ccsLf]
  field_simp
  ring

theorem ccsHalfCenterline_getLast (hs fr off : ℝ) (n : ℕ) (hhs : 0 < hs)
    (hfr0 : 0 < fr) (hfr1 : fr < 1) :
    (ccsHalfCenterline hs fr off n).getLast? = some (hs, off) := by
  obtain ⟨m, hm, hm0⟩ := nSec_eq_succ n
  rw [ccsHalfCenterline, hm,
    List.getLast?_append_of_ne_nil _ (by simp [linspaceIncl]),
    linspaceIncl, List.range_succ, List.map_append, List.map_append,
    List.getLast?_append_of_ne_nil _ (by simp)]
  simp only [List.map_cons, List.map_nil, List.getLast?_singleton]
  have hgm : ccsLf hs fr + (hs - ccsLf hs fr) * ((m : ℕ) : ℝ) / (((m + 1 : ℕ) : ℝ) - 1)
      = hs := by
    push_cast
    rw [show ((m:ℝ) + 1 - 1) = (m:ℝ) by ring]
    have hmne : (m:ℝ) ≠ 0 := Nat.cast_ne_zero.mpr hm0
    field_simp
  rw [hgm, ccsRigidY_at_shuttle hs fr off hhs hfr0 hfr1]

theorem ccsFlexY_hasDerivAt_zero (hs fr off : ℝ) :
    HasDerivAt (ccsFlexY hs fr off) 0 0 := by
  show HasDerivAt
    (fun x : ℝ => ccsA hs fr off * (1 - Real.cos (Real.pi * x / (2 * ccsLf hs fr)))) 0 0
  have hu : HasDerivAt (fun x : ℝ => Real.pi * x / (2 * ccsLf hs fr))
      (Real.pi / (2 * ccsLf hs fr)) 0 := by
    simpa using ((hasDerivAt_id (0:ℝ)).const_mul Real.pi).div_const (2 * ccsLf hs fr)
  have hcos :=
    (Real.hasDerivAt_cos ((fun x : ℝ => Real.pi * x / (2 * ccsLf hs fr)) 0)).comp 0 hu
  have hfull := (hcos.const_sub 1).const_mul (ccsA hs fr off)
  convert hfull using 1
  simp

theorem ccsRigidY_hasDerivAt (hs fr off x0 : ℝ) :
    HasDerivAt (ccsRigidY hs fr off) (ccsSlope hs fr off) x0 := by
  show HasDerivAt
    (fun x : ℝ => ccsA hs fr off + ccsSlope hs fr off * (x - ccsLf hs fr))
    (ccsSlope hs fr off) x0
  have h1 : HasDerivAt (fun x : ℝ => x - ccsLf hs fr) 1 x0 := (hasDerivAt_id x0).sub_const _
  simpa using (h1.const_mul (ccsSlope hs fr off)).const_add (ccsA hs fr off)

theorem ccsHalfY_hasDerivAt_anchor (hs fr off : ℝ) (hLf : 0 < ccsLf hs fr) :
    HasDerivAt (ccsHalfY hs fr off) 0 0 := by
  apply (ccsFlexY_hasDerivAt_zero hs fr off).congr_of_eventuallyEq
  filter_upwards [Iio_mem_nhds hLf] with x hx
  rw [ccsHalfY, if_pos (le_of_lt hx)]

theorem ccsHalfY_hasDerivAt_shuttle (hs fr off : ℝ) (hlt : ccsLf hs fr < hs) :
    HasDerivAt (ccsHalfY hs fr off) (ccsSlope hs fr off) hs := by
  apply (ccsRigidY_hasDerivAt hs fr off hs).congr_of_eventuallyEq
  filter_upwards [Ioi_mem_nhds hlt] with x hx
  rw [ccsHalfY, if_neg (not_le.mpr hx)]

theorem ccsSlope_zero_iff (hs fr off : ℝ) (hhs : 0 < hs) (hfr0 : 0 < fr)
    (hfr1 : fr < 1) : ccsSlope hs fr off = 0 ↔ off = 0 := by
  have hLf : 0 < fr * hs := mul_pos hfr0 hhs
  have hLr : 0 < hs - fr * hs := by nlinarith
  have hpi := Real.pi_pos
  have hq : 0 ≤ Real.pi * (hs - fr * hs) / (2 * (fr * hs)) :=
    div_nonneg (mul_nonneg hpi.le hLr.le) (by positivity)
  have hden : (1:ℝ) + Real.pi * (hs - fr * hs) / (2 * (fr * hs)) ≠ 0 :=
    (by linarith : (0:ℝ) < 1 + Real.pi * (hs - fr * hs) / (2 * (fr * hs))).ne'
  constructor
  · intro h
    rw [ccsSlope, ccsA, ccsLr, ccsLf, div_eq_zero_iff] at h
    rcases h with h | h
    · rcases mul_eq_zero.mp h with h | h
      · rw [div_eq_zero_iff] at h
        rcases h with h | h
        · exact h
        · exact absurd h hden
      · exact absurd h Real.pi_ne_zero
    · exact absurd h (mul_pos (by norm_num : (0:ℝ) < 2) hLf).ne'
  · intro h
    rw [ccsSlope, ccsA, h]
    simp

/-- C4 counterexample: for `flex_ratio = 1.5 ∉ (0,1)` the centerline
generator does not fail — it returns a full list of 200 curve samples.
No `GeometryError` (or validation of any kind) exists in the code. -/
theorem claim_C4_counterexample :
    ¬((3:ℝ)/2 < 1)
    ∧ (ccsHalfCenterline 20 (3/2) (6/5) 200).length = 200 := by
  refine ⟨by norm_num, ?_⟩
  rw [ccsHalfCenterline]
  simp only [List.length_append, List.length_map, linspaceExcl, linspaceIncl,
    List.length_range, nSec]
  norm_num

/-- C4 amended: centerline generation never raises a `GeometryError` (no
such class or validation exists): whenever the cosine divisor
`L_flex = flex_ratio·half_span` is nonzero — the code's only failure mode
is Python's `ZeroDivisionError` when `L_flex = 0`, i.e. `flex_ratio = 0`
or `half_span = 0`, raised while computing `A`, which is still not a
`GeometryError` — it silently builds and returns a sample list of length
`2·max(n_points/2, 30)`, including for `flex_ratio ∉ (0,1)`,
`half_span < 0` and `initial_offset < 0`. -/
theorem claim_C4_amended (hs fr off : ℝ) (n : ℕ) (hLf : ccsLf hs fr ≠ 0) :
    (ccsHalfCenterline hs fr off n).length = 2 * nSec n
    ∧ 0 < (ccsHalfCenterline hs fr off n).length := by
  have hlen : (ccsHalfCenterline hs fr off n).length = 2 * nSec n := by
    rw [ccsHalfCenterline]
    simp only [List.length_append, List.length_map, linspaceExcl, linspaceIncl,
      List.length_range]
    omega
  have h30 : 30 ≤ nSec n := le_max_right _ _
  exact ⟨hlen, by omega⟩

/-- C4 witness: the amended theorem evaluated at the out-of-range spec
`flex_ratio = 1.5`. -/
theorem claim_C4_witness :
    (ccsHalfCenterline 20 (3/2) (6/5) 200).length = 2 * nSec 200
    ∧ 0 < (ccsHalfCenterline 20 (3/2) (6/5) 200).length :=
  claim_C4_amended 20 (3/2) (6/5) 200 (by norm_num [ccsLf])

/-- C3 counterexample: on the default half-beam spec the analytic
centerline has derivative `ccsSlope = A·π/(2·L_flex) ≠ 0` at the shuttle
end `x = half_span`, so the slope there is not 0 (the claim's
clamped-clamped condition fails at the shuttle end). -/
theorem claim_C3_counterexample :
    HasDerivAt (ccsHalfY 20 (3/10) (6/5)) (ccsSlope 20 (3/10) (6/5)) 20
    ∧ ccsSlope 20 (3/10) (6/5) ≠ 0
    ∧ ¬ HasDerivAt (ccsHalfY 20 (3/10) (6/5)) 0 20 := by
  have hlt : ccsLf 20 (3/10) < 20 := by norm_num [ccsLf]
  have hd := ccsHalfY_hasDerivAt_shuttle 20 (3/10) (6/5) hlt
  have hne : ccsSlope 20 (3/10) (6/5) ≠ 0 := by
    rw [ne_eq, ccsSlope_zero_iff 20 (3/10) (6/5) (by norm_num) (by norm_num) (by norm_num)]
    norm_num
  exact ⟨hd, hne, fun h0 => hne (hd.unique h0)⟩

/-- C3 amended: for every valid half-beam spec the sampled centerline
starts exactly at `(0,0)` and ends exactly at `(half_span,
initial_offset)`, and the slope of the underlying curve is exactly 0 at
the anchor end; at the shuttle end the slope equals
`ccsSlope = A·π/(2·L_flex)`, which vanishes only when
`initial_offset = 0`. -/
theorem claim_C3_amended (hs fr off : ℝ) (n : ℕ) (hhs : 0 < hs) (hfr0 : 0 < fr)
    (hfr1 : fr < 1) (hoff : 0 ≤ off) :
    (ccsHalfCenterline hs fr off n).head? = some (0, 0)
    ∧ (ccsHalfCenterline hs fr off n).getLast? = some (hs, off)
    ∧ HasDerivAt (ccsHalfY hs fr off) 0 0
    ∧ HasDerivAt (ccsHalfY hs fr off) (ccsSlope hs fr off) hs
    ∧ (ccsSlope hs fr off = 0 ↔ off = 0) := by
  have hLf : 0 < ccsLf hs fr := by
    rw [ccsLf]
    exact mul_pos hfr0 hhs
  have hlt : ccsLf hs fr < hs := by
    rw [ccsLf]
    nlinarith
  exact ⟨ccsHalfCenterline_head hs fr off n,
    ccsHalfCenterline_getLast hs fr off n hhs hfr0 hfr1,
    ccsHalfY_hasDerivAt_anchor hs fr off hLf,
    ccsHalfY_hasDerivAt_shuttle hs fr off hlt,
    ccsSlope_zero_iff hs fr off hhs hfr0 hfr1⟩

/-- C3 witness: endpoints of the sampled default centerline. -/
theorem claim_C3_witness :
    (ccsHalfCenterline 20 (3/10) (6/5) 400).head? = some (0, 0)
    ∧ (ccsHalfCenterline 20 (3/10) (6/5) 400).getLast? = some (20, 6/5) := by
  have h := claim_C3_amended 20 (3/10) (6/5) 400
    (by norm_num) (by norm_num) (by norm_num) (by norm_num)
  exact ⟨h.1, h.2.1⟩

end MCW
